import Mathlib

/-!
Verification of the WeCare skin-care product sale system.

This file gives a shallow embedding of the program's core logic and proves the
behavioural claims stated about it.  The embedding follows the Python source:

* `product_manager.py` — catalog persistence (`load_products`, `save_products`),
  identifier allocation (`get_next_id`), stock update (`update_product_stock`)
  and batch restocking (`handle_restock`);
* `main.py` — the sale workflow (`process_sale_item`, the per-line stock update
  of `make_sale`, the markup constant) and the end-of-transaction invoice steps.

Modelling conventions:

* file contents are `List Char`; Python's `line.strip()` is `pyStrip`, splitting
  on the two-character separator `", "` is `splitSep`, and iterating over the
  lines of a file is `splitLines`;
* Python's arbitrary-precision `int` is `Int`.  Lean's `/` on `Int` is Euclidean
  division, which agrees with Python's floor division `//` for the positive
  divisors used by the program;
* Python's `float` is modelled as `ℚ`.  The program only multiplies, adds and
  serializes prices; every float is an exact decimal fraction and CPython
  guarantees `float(str(x)) == x`, which the model mirrors with an exact decimal
  rendering (`ratToChars`) and parser (`parseFloat`).  Exponent, `inf` and `nan`
  spellings accepted by Python's `float()` are not modelled, as the catalog
  writer never emits them;
* fallible parsing returns `Option`; the `Except` result of `process_sale_item`
  mirrors the `(item, error)` pair returned by the Python function, with the
  printed error strings abstracted into the `SaleError` inductive.
-/

namespace WeCare

/-! ## Characters and Python `str.strip` -/

/-- Whitespace characters recognised by Python's `str.strip()`. -/
def isPySpace (c : Char) : Bool :=
  c = ' ' || c = '\t' || c = '\n' || c = '\r' || c = '\x0b' || c = '\x0c'

/-- Remove leading Python whitespace. -/
def lstrip (s : List Char) : List Char := s.dropWhile isPySpace

/-- Remove trailing Python whitespace. -/
def rstrip (s : List Char) : List Char := (s.reverse.dropWhile isPySpace).reverse

/-- Python's `str.strip()` on a list of characters. -/
def pyStrip (s : List Char) : List Char := rstrip (lstrip s)

theorem length_dropWhile_le (p : Char → Bool) (l : List Char) :
    (l.dropWhile p).length ≤ l.length := by
  induction l with
  | nil => simp
  | cons a l ih =>
    rw [List.dropWhile_cons]
    cases p a <;> simp
    omega

theorem lstrip_of_head (c : Char) (s : List Char) (h : isPySpace c = false) :
    lstrip (c :: s) = c :: s := by
  simp [lstrip, List.dropWhile_cons, h]

theorem rstrip_append_last (s : List Char) (c : Char) (h : isPySpace c = false) :
    rstrip (s ++ [c]) = s ++ [c] := by
  simp [rstrip, List.dropWhile_cons, h]

theorem lstrip_append (s t : List Char) (hs : lstrip s = s) (hne : s ≠ []) :
    lstrip (s ++ t) = s ++ t := by
  cases s with
  | nil => exact absurd rfl hne
  | cons c s' =>
    have hc : isPySpace c = false := by
      by_contra hcc
      simp only [Bool.not_eq_false] at hcc
      simp [lstrip, List.dropWhile_cons, hcc] at hs
      have hlen := congrArg List.length hs
      simp at hlen
      have := length_dropWhile_le isPySpace s'
      omega
    simp [lstrip, List.dropWhile_cons, hc]

theorem rstrip_append (s t : List Char) (ht : rstrip t = t) (hne : t ≠ []) :
    rstrip (s ++ t) = s ++ t := by
  obtain ⟨t', c, rfl⟩ := List.eq_nil_or_concat t |>.resolve_left hne
  simp only [List.concat_eq_append] at ht ⊢
  have hc : isPySpace c = false := by
    by_contra hcc
    simp only [Bool.not_eq_false] at hcc
    simp [rstrip, List.dropWhile_cons, hcc] at ht
    have hlen := congrArg List.length ht
    have hle := length_dropWhile_le isPySpace t'.reverse
    have hrev : t'.reverse.length = t'.length := by simp
    simp at hlen
    omega
  rw [← List.append_assoc]
  exact rstrip_append_last _ _ hc

theorem pyStrip_eq_self (s : List Char) (hs : lstrip s = s) (ht : rstrip s = s) :
    pyStrip s = s := by
  simp [pyStrip, hs, ht]

theorem pyStrip_nil : pyStrip [] = [] := rfl

/-! ## Splitting on the `", "` field separator

`splitSep` models Python's `line.split(', ')`: leftmost-first, non-overlapping
occurrences of the two-character separator.  `joinSep` models the join performed
by the f-string in `save_products` (fields interleaved with `", "`).  `noSep`
decides that a field contains no occurrence of the separator. -/

/-- Attach a character to the front of the first field of a split result. -/
def consHead (c : Char) : List (List Char) → List (List Char)
  | [] => [[c]]
  | f :: fs => (c :: f) :: fs

/-- Python's `s.split(', ')` on a list of characters. -/
def splitSep : List Char → List (List Char)
  | [] => [[]]
  | [c] => [[c]]
  | c :: d :: rest =>
    if c = ',' ∧ d = ' ' then [] :: splitSep rest
    else consHead c (splitSep (d :: rest))

/-- Join fields with the `", "` separator, as the f-string in `save_products`
does. -/
def joinSep : List (List Char) → List Char
  | [] => []
  | [f] => f
  | f :: fs => f ++ ',' :: ' ' :: joinSep fs

/-- No occurrence of the separator `", "` inside the field. -/
def noSep : List Char → Bool
  | [] => true
  | [_] => true
  | c :: d :: rest => (!(c = ',' && d = ' ')) && noSep (d :: rest)

theorem noSep_cons (c : Char) (s : List Char) (h : noSep (c :: s) = true) :
    noSep s = true := by
  cases s with
  | nil => rfl
  | cons d rest => simp [noSep] at h; exact h.2

theorem splitSep_sep (rest : List Char) :
    splitSep (',' :: ' ' :: rest) = [] :: splitSep rest := by
  simp [splitSep]

theorem splitSep_append (f rest : List Char) (h : noSep f = true) :
    splitSep (f ++ ',' :: ' ' :: rest) = f :: splitSep rest := by
  induction f with
  | nil => simpa using splitSep_sep rest
  | cons c f' ih =>
    cases f' with
    | nil =>
      show splitSep (c :: ',' :: ' ' :: rest) = [c] :: splitSep rest
      have hcd : ¬(c = ',' ∧ (',' : Char) = ' ') := by simp
      simp [splitSep, hcd, splitSep_sep, consHead]
    | cons d f'' =>
      have hnd : noSep (d :: f'') = true := noSep_cons c _ h
      have hcd : ¬(c = ',' ∧ d = ' ') := by
        intro hh
        simp [noSep, hh.1, hh.2] at h
      show splitSep (c :: (d :: f'' ++ ',' :: ' ' :: rest)) = (c :: d :: f'') :: splitSep rest
      have expand : (c :: (d :: f'' ++ ',' :: ' ' :: rest))
          = c :: d :: (f'' ++ ',' :: ' ' :: rest) := by simp
      rw [expand]
      have tail_ne : (f'' ++ ',' :: ' ' :: rest) ≠ [] := by simp
      rw [show splitSep (c :: d :: (f'' ++ ',' :: ' ' :: rest))
            = if c = ',' ∧ d = ' ' then [] :: splitSep (f'' ++ ',' :: ' ' :: rest)
              else consHead c (splitSep (d :: (f'' ++ ',' :: ' ' :: rest))) from by
            cases hf : f'' ++ ',' :: ' ' :: rest with
            | nil => exact absurd hf tail_ne
            | cons x xs => simp [splitSep]]
      rw [if_neg hcd]
      have : splitSep (d :: (f'' ++ ',' :: ' ' :: rest)) = (d :: f'') :: splitSep rest := by
        have := ih hnd
        simpa using this
      rw [this]
      rfl

theorem splitSep_no_sep (f : List Char) (h : noSep f = true) :
    splitSep f = [f] := by
  induction f with
  | nil => rfl
  | cons c f' ih =>
    cases f' with
    | nil => rfl
    | cons d f'' =>
      have hnd : noSep (d :: f'') = true := noSep_cons c _ h
      have hcd : ¬(c = ',' ∧ d = ' ') := by
        intro hh
        simp [noSep, hh.1, hh.2] at h
      simp [splitSep, hcd, ih hnd, consHead]

theorem splitSep_joinSep (fs : List (List Char)) (hne : fs ≠ [])
    (h : ∀ f ∈ fs, noSep f = true) :
    splitSep (joinSep fs) = fs := by
  induction fs with
  | nil => exact absurd rfl hne
  | cons f fs' ih =>
    cases fs' with
    | nil => exact splitSep_no_sep f (h f (by simp))
    | cons g gs =>
      have hj : joinSep (f :: g :: gs) = f ++ ',' :: ' ' :: joinSep (g :: gs) := rfl
      rw [hj, splitSep_append f _ (h f (by simp))]
      rw [ih (by simp) (fun x hx => h x (List.mem_cons_of_mem f hx))]

/-- A field containing no comma at all contains no separator. -/
theorem noSep_of_no_comma (f : List Char) (h : ∀ c ∈ f, c ≠ ',') :
    noSep f = true := by
  induction f with
  | nil => rfl
  | cons c f' ih =>
    cases f' with
    | nil => rfl
    | cons d rest =>
      have hc : c ≠ ',' := h c (by simp)
      simp [noSep, hc]
      exact ih (fun x hx => h x (List.mem_cons_of_mem c hx))

/-! ## Splitting a file into lines -/

/-- Iterating over the lines of a file, as `for line in file` does (the
trailing newline that Python keeps on each line is immaterial because the code
always strips the line before using it). -/
def splitLines : List Char → List (List Char)
  | [] => [[]]
  | c :: rest => if c = '\n' then [] :: splitLines rest else consHead c (splitLines rest)

theorem splitLines_append (l rest : List Char) (h : '\n' ∉ l) :
    splitLines (l ++ '\n' :: rest) = l :: splitLines rest := by
  induction l with
  | nil => simp [splitLines]
  | cons c l' ih =>
    have hc : ¬(c = '\n') := fun hh => h (by simp [hh])
    have hl' : '\n' ∉ l' := fun hh => h (List.mem_cons_of_mem c hh)
    simp only [List.cons_append, splitLines, hc, if_false]
    have he : l'.append ('\n' :: rest) = l' ++ '\n' :: rest := rfl
    rw [he, ih hl']
    rfl

/-! ## Decimal integers: `str(int)` and `int(str)` -/

/-- ASCII decimal digit test, as used by Python's numeric parsers. -/
def isDigitCh (c : Char) : Bool := 48 ≤ c.toNat && c.toNat ≤ 57

/-- Value of a most-significant-first digit string, as accumulated by a
decimal parser. -/
def valOfChars (s : List Char) : Nat :=
  s.foldl (fun a c => 10 * a + (c.toNat - 48)) 0

/-- Fuel-bounded decimal rendering of a natural number, most significant digit
first; fuel `n` always suffices for `n` itself. -/
def natToCharsAux : Nat → Nat → List Char
  | 0, _ => []
  | _ + 1, 0 => []
  | fuel + 1, n + 1 => natToCharsAux fuel ((n + 1) / 10) ++ [Nat.digitChar ((n + 1) % 10)]

/-- Python's `str` on a non-negative `int`. -/
def natToChars (n : Nat) : List Char :=
  if n = 0 then ['0'] else natToCharsAux n n

/-- Digits-only parse of a natural number (no sign, no whitespace). -/
def parseNat (s : List Char) : Option Nat :=
  if (!s.isEmpty) && s.all isDigitCh then some (valOfChars s) else none

/-- Python's `int(str)` conversion used by `load_products` for the `id` and
`stock` fields: surrounding whitespace is stripped, an optional sign is
accepted, then decimal digits.  (Underscore digit grouping, accepted by
CPython, is not modelled; the catalog writer never emits it.) -/
def parseInt (s : List Char) : Option Int :=
  match pyStrip s with
  | [] => none
  | c :: rest =>
    if c = '-' then (parseNat rest).map (fun n => -(n : Int))
    else if c = '+' then (parseNat rest).map (fun n => (n : Int))
    else (parseNat (c :: rest)).map (fun n => (n : Int))

/-- Python's `str` on an `int`, as interpolated by the f-string in
`save_products`. -/
def intToChars (i : Int) : List Char :=
  if i < 0 then '-' :: natToChars i.natAbs else natToChars i.toNat

theorem digitChar_isDigit (d : Nat) (h : d < 10) :
    isDigitCh (Nat.digitChar d) = true := by
  interval_cases d <;> decide

theorem digitChar_val (d : Nat) (h : d < 10) :
    (Nat.digitChar d).toNat - 48 = d := by
  interval_cases d <;> decide

theorem valOfChars_append (s : List Char) (c : Char) :
    valOfChars (s ++ [c]) = 10 * valOfChars s + (c.toNat - 48) := by
  simp [valOfChars, List.foldl_append]

theorem valOfChars_aux (fuel : Nat) :
    ∀ n, n ≤ fuel → valOfChars (natToCharsAux fuel n) = n := by
  induction fuel with
  | zero =>
    intro n hn
    interval_cases n
    rfl
  | succ fuel ih =>
    intro n hn
    cases n with
    | zero => rfl
    | succ m =>
      have hdiv : (m + 1) / 10 ≤ fuel := by
        have : (m + 1) / 10 < m + 1 := Nat.div_lt_self (by omega) (by omega)
        omega
      rw [natToCharsAux, valOfChars_append, ih _ hdiv,
          digitChar_val _ (Nat.mod_lt _ (by omega))]
      omega

theorem natToCharsAux_digits (fuel : Nat) :
    ∀ n, ∀ c ∈ natToCharsAux fuel n, isDigitCh c = true := by
  induction fuel with
  | zero => intro n c hc; simp [natToCharsAux] at hc
  | succ fuel ih =>
    intro n c hc
    cases n with
    | zero => simp [natToCharsAux] at hc
    | succ m =>
      rw [natToCharsAux] at hc
      rcases List.mem_append.mp hc with h | h
      · exact ih _ c h
      · simp at h
        rw [h]
        exact digitChar_isDigit _ (Nat.mod_lt _ (by omega))

theorem natToCharsAux_length (fuel : Nat) :
    ∀ n k, n < 10 ^ k → (natToCharsAux fuel n).length ≤ k := by
  induction fuel with
  | zero => intro n k _; simp [natToCharsAux]
  | succ fuel ih =>
    intro n k hk
    cases n with
    | zero => simp [natToCharsAux]
    | succ m =>
      cases k with
      | zero => simp at hk
      | succ k' =>
        have hdiv : (m + 1) / 10 < 10 ^ k' := by
          rw [Nat.div_lt_iff_lt_mul (by omega)]
          calc m + 1 < 10 ^ (k' + 1) := hk
          _ = 10 ^ k' * 10 := by ring
        have := ih ((m + 1) / 10) k' hdiv
        rw [natToCharsAux]
        simp
        omega

theorem natToChars_digits (n : Nat) :
    ∀ c ∈ natToChars n, isDigitCh c = true := by
  intro c hc
  unfold natToChars at hc
  by_cases h : n = 0
  · simp [h] at hc
    rw [hc]; decide
  · rw [if_neg h] at hc
    exact natToCharsAux_digits n n c hc

theorem natToChars_ne_nil (n : Nat) : natToChars n ≠ [] := by
  unfold natToChars
  by_cases h : n = 0
  · simp [h]
  · rw [if_neg h]
    cases n with
    | zero => exact absurd rfl h
    | succ m => rw [natToCharsAux]; simp

theorem valOfChars_natToChars (n : Nat) : valOfChars (natToChars n) = n := by
  unfold natToChars
  by_cases h : n = 0
  · simp [h]; rfl
  · rw [if_neg h]
    exact valOfChars_aux n n le_rfl

theorem natToChars_length (n k : Nat) (h : n < 10 ^ k) (hk : 0 < k) :
    (natToChars n).length ≤ k := by
  unfold natToChars
  by_cases h0 : n = 0
  · simp [h0]; omega
  · rw [if_neg h0]
    exact natToCharsAux_length n n k h

theorem parseNat_natToChars (n : Nat) : parseNat (natToChars n) = some n := by
  have h1 : (natToChars n).isEmpty = false := by
    cases hc : natToChars n with
    | nil => exact absurd hc (natToChars_ne_nil n)
    | cons c rest => rfl
  have h2 : (natToChars n).all isDigitCh = true :=
    List.all_eq_true.mpr (natToChars_digits n)
  simp [parseNat, h1, h2, valOfChars_natToChars]

theorem isDigitCh_bounds (c : Char) (h : isDigitCh c = true) :
    48 ≤ c.toNat ∧ c.toNat ≤ 57 := by
  simpa [isDigitCh] using h

theorem isPySpace_cases (c : Char) (h : isPySpace c = true) :
    c = ' ' ∨ c = '\t' ∨ c = '\n' ∨ c = '\r' ∨ c = '\x0b' ∨ c = '\x0c' := by
  simpa [isPySpace, or_assoc] using h

theorem isDigitCh_not_space (c : Char) (h : isDigitCh c = true) :
    isPySpace c = false := by
  by_contra hs
  simp only [Bool.not_eq_false] at hs
  rcases isPySpace_cases c hs with rfl | rfl | rfl | rfl | rfl | rfl <;>
    exact absurd h (by decide)

theorem isDigitCh_ne (c : Char) (h : isDigitCh c = true) :
    c ≠ ',' ∧ c ≠ '\n' ∧ c ≠ '-' ∧ c ≠ '+' ∧ c ≠ '.' := by
  refine ⟨?_, ?_, ?_, ?_, ?_⟩ <;>
    · rintro rfl
      exact absurd h (by decide)

theorem pyStrip_of_no_space (s : List Char) (h : ∀ c ∈ s, isPySpace c = false) :
    pyStrip s = s := by
  have h1 : lstrip s = s := by
    cases s with
    | nil => rfl
    | cons c t => exact lstrip_of_head c t (h c (by simp))
  have h2 : rstrip s = s := by
    rcases List.eq_nil_or_concat s with rfl | ⟨t, c, rfl⟩
    · rfl
    · simp only [List.concat_eq_append]
      exact rstrip_append_last t c (h c (by simp))
  exact pyStrip_eq_self s h1 h2

theorem intToChars_no_space (i : Int) :
    ∀ c ∈ intToChars i, isPySpace c = false := by
  intro c hc
  unfold intToChars at hc
  by_cases h : i < 0
  · rw [if_pos h] at hc
    rcases List.mem_cons.mp hc with rfl | hm
    · decide
    · exact isDigitCh_not_space c (natToChars_digits _ c hm)
  · rw [if_neg h] at hc
    exact isDigitCh_not_space c (natToChars_digits _ c hc)

theorem parseInt_cons (s : List Char) (c : Char) (rest : List Char)
    (h : pyStrip s = c :: rest) :
    parseInt s =
      if c = '-' then (parseNat rest).map (fun n => -(n : Int))
      else if c = '+' then (parseNat rest).map (fun n => (n : Int))
      else (parseNat (c :: rest)).map (fun n => (n : Int)) := by
  unfold parseInt
  rw [h]

theorem parseInt_intToChars (i : Int) : parseInt (intToChars i) = some i := by
  have hstrip : pyStrip (intToChars i) = intToChars i :=
    pyStrip_of_no_space _ (intToChars_no_space i)
  by_cases h : i < 0
  · have he : intToChars i = '-' :: natToChars i.natAbs := by
      unfold intToChars; rw [if_pos h]
    rw [parseInt_cons _ '-' (natToChars i.natAbs) (by rw [hstrip, he])]
    have hv : -((i.natAbs : Nat) : Int) = i := by omega
    rw [if_pos rfl, parseNat_natToChars]
    show some (-((i.natAbs : Nat) : Int)) = some i
    rw [hv]
  · have he : intToChars i = natToChars i.toNat := by
      unfold intToChars; rw [if_neg h]
    cases hc : natToChars i.toNat with
    | nil => exact absurd hc (natToChars_ne_nil _)
    | cons c rest =>
      have hcd : isDigitCh c = true := by
        apply natToChars_digits i.toNat
        rw [hc]; simp
      obtain ⟨_, _, hc2, hc3, _⟩ := isDigitCh_ne c hcd
      rw [parseInt_cons _ c rest (by rw [hstrip, he, hc])]
      rw [if_neg hc2, if_neg hc3, ← hc, parseNat_natToChars]
      have hv : ((i.toNat : Nat) : Int) = i := by omega
      simp [hv]

/-! ## Decimal fractions: `str(float)` and `float(str)`

The catalog stores the cost price as a Python float.  Every float is an exact
decimal fraction, and CPython guarantees that `float(str(x)) == x`.  The model
represents the price as `ℚ`, restricts to decimal fractions (`IsDecimalRat`),
renders with an exact fixed-exponent decimal expansion and parses the decimal
forms accepted by `float()`.  The exponent `q.den` always suffices: a decimal
denominator is `2^a * 5^b` with `a, b ≤ q.den`, so `q.den ∣ 10 ^ q.den`. -/

/-- The rational is an exact decimal fraction (every Python float is one). -/
def IsDecimalRat (q : ℚ) : Prop := q.den ∣ 10 ^ q.den

instance (q : ℚ) : Decidable (IsDecimalRat q) :=
  inferInstanceAs (Decidable (q.den ∣ 10 ^ q.den))

/-- Left-pad a digit string with zeros to width `e` (fractional part of a
fixed-exponent decimal rendering). -/
def padZeros (e : Nat) (s : List Char) : List Char :=
  List.replicate (e - s.length) '0' ++ s

/-- Serialization of the cost price, modelling `str(float)`: an exact decimal
rendering with `q.den` fractional digits (CPython prints the shortest decimal
that parses back to the same float; both renderings parse back exactly). -/
def ratToChars (q : ℚ) : List Char :=
  let m : Int := q.num * ((10 : Int) ^ q.den / (q.den : Int))
  (if m < 0 then ['-'] else []) ++
    natToChars (m.natAbs / 10 ^ q.den) ++
    '.' :: padZeros q.den (natToChars (m.natAbs % 10 ^ q.den))

/-- Combine the integer part (before the first dot) with the rest of the
string (empty, or the dot followed by the fractional part). -/
def parseFloatParts (ip : List Char) : List Char → Option ℚ
  | [] => if (!ip.isEmpty) && ip.all isDigitCh then some ((valOfChars ip : ℚ)) else none
  | _ :: fp =>
    if (!(ip.isEmpty && fp.isEmpty)) && ip.all isDigitCh && fp.all isDigitCh then
      some ((valOfChars ip : ℚ) + (valOfChars fp : ℚ) / (10 : ℚ) ^ fp.length)
    else none

/-- Unsigned decimal float forms accepted by Python's `float()`:
`digits`, `digits.digits`, `.digits`, `digits.` (at least one digit). -/
def parseFloatCore (s : List Char) : Option ℚ :=
  parseFloatParts (s.takeWhile (fun c => c != '.')) (s.dropWhile (fun c => c != '.'))

/-- Python's `float(str)` conversion used by `load_products` for the
`cost_price` field: strip surrounding whitespace, optional sign, decimal form. -/
def parseFloat (s : List Char) : Option ℚ :=
  match pyStrip s with
  | [] => none
  | c :: rest =>
    if c = '-' then (parseFloatCore rest).map (fun q => -q)
    else if c = '+' then parseFloatCore rest
    else parseFloatCore (c :: rest)

theorem padZeros_digits (e : Nat) (s : List Char) (h : ∀ c ∈ s, isDigitCh c = true) :
    ∀ c ∈ padZeros e s, isDigitCh c = true := by
  intro c hc
  rcases List.mem_append.mp hc with hm | hm
  · rw [List.eq_of_mem_replicate hm]; decide
  · exact h c hm

theorem padZeros_length (e : Nat) (s : List Char) (h : s.length ≤ e) :
    (padZeros e s).length = e := by
  simp [padZeros]
  omega

theorem valOfChars_padZeros (e : Nat) (s : List Char) :
    valOfChars (padZeros e s) = valOfChars s := by
  unfold padZeros
  generalize e - s.length = k
  induction k with
  | zero => simp
  | succ n ih =>
    rw [List.replicate_succ]
    show valOfChars ('0' :: (List.replicate n '0' ++ s)) = valOfChars s
    unfold valOfChars at ih ⊢
    rw [List.foldl_cons]
    have h0 : 10 * 0 + ('0'.toNat - 48) = 0 := by decide
    rw [h0]
    exact ih

theorem takeWhile_to_dot (l1 l2 : List Char) (h : ∀ c ∈ l1, c ≠ '.') :
    (l1 ++ '.' :: l2).takeWhile (fun c => c != '.') = l1 ∧
    (l1 ++ '.' :: l2).dropWhile (fun c => c != '.') = '.' :: l2 := by
  induction l1 with
  | nil => simp [List.takeWhile_cons, List.dropWhile_cons]
  | cons c t ih =>
    have hc : (c != '.') = true := bne_iff_ne.mpr (h c (by simp))
    obtain ⟨ih1, ih2⟩ := ih (fun x hx => h x (List.mem_cons_of_mem c hx))
    constructor
    · simp only [List.cons_append, List.takeWhile_cons, hc, if_true]
      rw [ih1]
    · simp only [List.cons_append, List.dropWhile_cons, hc, if_true]
      rw [ih2]

theorem parseFloatCore_render (a e : Nat) (he : 0 < e) :
    parseFloatCore (natToChars (a / 10 ^ e) ++ '.' :: padZeros e (natToChars (a % 10 ^ e)))
      = some ((a : ℚ) / 10 ^ e) := by
  have hip_digits := natToChars_digits (a / 10 ^ e)
  have hfp_digits := padZeros_digits e _ (natToChars_digits (a % 10 ^ e))
  have hmodlt : a % 10 ^ e < 10 ^ e := Nat.mod_lt _ (by positivity)
  have hfp_len : (padZeros e (natToChars (a % 10 ^ e))).length = e :=
    padZeros_length e _ (natToChars_length _ e hmodlt he)
  have hnodot : ∀ c ∈ natToChars (a / 10 ^ e), c ≠ '.' :=
    fun c hc => (isDigitCh_ne c (hip_digits c hc)).2.2.2.2
  obtain ⟨htake, hdrop⟩ := takeWhile_to_dot _ (padZeros e (natToChars (a % 10 ^ e))) hnodot
  have hipne : (natToChars (a / 10 ^ e)).isEmpty = false := by
    cases hc : natToChars (a / 10 ^ e) with
    | nil => exact absurd hc (natToChars_ne_nil _)
    | cons x xs => rfl
  unfold parseFloatCore
  rw [htake, hdrop, parseFloatParts]
  rw [if_pos]
  · rw [valOfChars_natToChars, valOfChars_padZeros, valOfChars_natToChars, hfp_len]
    have key : (10 : ℚ) ^ e * ((a / 10 ^ e : Nat) : ℚ) + ((a % 10 ^ e : Nat) : ℚ) = a := by
      have hdm := congrArg (fun n : Nat => (n : ℚ)) (Nat.div_add_mod a (10 ^ e))
      push_cast at hdm
      linarith [hdm]
    have h10 : (10 : ℚ) ^ e ≠ 0 := by positivity
    congr 1
    rw [eq_div_iff h10, add_mul, div_mul_cancel₀ _ h10]
    linarith [key]
  · simp only [hipne, Bool.false_and, Bool.not_false, Bool.true_and, Bool.and_eq_true]
    exact ⟨List.all_eq_true.mpr hip_digits, List.all_eq_true.mpr hfp_digits⟩

theorem render_core_no_space (x : Nat) (e : Nat) (y : Nat) :
    ∀ c ∈ natToChars x ++ '.' :: padZeros e (natToChars y), isPySpace c = false := by
  intro c hc
  rcases List.mem_append.mp hc with hm | hm
  · exact isDigitCh_not_space c (natToChars_digits x c hm)
  · rcases List.mem_cons.mp hm with rfl | hm'
    · decide
    · exact isDigitCh_not_space c (padZeros_digits e _ (natToChars_digits y) c hm')

theorem parseFloat_cons (s : List Char) (c : Char) (rest : List Char)
    (h : pyStrip s = c :: rest) :
    parseFloat s =
      if c = '-' then (parseFloatCore rest).map (fun q => -q)
      else if c = '+' then parseFloatCore rest
      else parseFloatCore (c :: rest) := by
  unfold parseFloat
  rw [h]

theorem ratToChars_eq (q : ℚ) :
    ratToChars q =
      (if q.num * ((10 : Int) ^ q.den / (q.den : Int)) < 0 then ['-'] else []) ++
      natToChars ((q.num * ((10 : Int) ^ q.den / (q.den : Int))).natAbs / 10 ^ q.den) ++
      '.' :: padZeros q.den
        (natToChars ((q.num * ((10 : Int) ^ q.den / (q.den : Int))).natAbs % 10 ^ q.den)) :=
  rfl

theorem parseFloat_ratToChars (q : ℚ) (h : IsDecimalRat q) :
    parseFloat (ratToChars q) = some q := by
  have hden0 : (0 : Nat) < q.den := q.den_pos
  have hdvd : ((q.den : Int)) ∣ (10 : Int) ^ q.den := by
    have := Int.natCast_dvd_natCast.mpr h
    push_cast at this
    exact this
  have hP : (q.den : Int) * ((10 : Int) ^ q.den / (q.den : Int)) = 10 ^ q.den :=
    Int.mul_ediv_cancel' hdvd
  have hdenQ : ((q.den : Nat) : ℚ) ≠ 0 := by positivity
  have hm : ((q.num * ((10 : Int) ^ q.den / (q.den : Int)) : Int) : ℚ) = q * 10 ^ q.den := by
    have hPcast : ((q.den : Nat) : ℚ) * (((10 : Int) ^ q.den / (q.den : Int) : Int) : ℚ)
        = (10 : ℚ) ^ q.den := by
      exact_mod_cast congrArg (fun z : Int => (z : ℚ)) hP
    have hq : q * ((q.den : Nat) : ℚ) = ((q.num : Int) : ℚ) := Rat.mul_den_eq_num q
    apply mul_right_cancel₀ hdenQ
    push_cast
    calc ((q.num : Int) : ℚ) * (((10 : Int) ^ q.den / (q.den : Int) : Int) : ℚ) * ((q.den : Nat) : ℚ)
        = ((q.num : Int) : ℚ) * (((q.den : Nat) : ℚ) * (((10 : Int) ^ q.den / (q.den : Int) : Int) : ℚ)) := by
          ring
      _ = ((q.num : Int) : ℚ) * (10 : ℚ) ^ q.den := by rw [hPcast]
      _ = (q * ((q.den : Nat) : ℚ)) * (10 : ℚ) ^ q.den := by rw [hq]
      _ = q * 10 ^ q.den * ((q.den : Nat) : ℚ) := by ring
  set m : Int := q.num * ((10 : Int) ^ q.den / (q.den : Int)) with hmdef
  have h10 : (0 : ℚ) < 10 ^ q.den := by positivity
  by_cases hneg : m < 0
  · have habs : ((m.natAbs : Nat) : ℚ) = -(m : ℚ) := by
      have h2 := Int.ofNat_natAbs_of_nonpos (le_of_lt hneg)
      have h3 := congrArg (fun z : Int => (z : ℚ)) h2
      simp only [Int.cast_natCast, Int.cast_neg] at h3
      exact h3
    have hshape : ratToChars q =
        '-' :: (natToChars (m.natAbs / 10 ^ q.den) ++
          '.' :: padZeros q.den (natToChars (m.natAbs % 10 ^ q.den))) := by
      rw [ratToChars_eq, ← hmdef, if_pos hneg]
      rfl
    have hstrip : pyStrip (ratToChars q) = ratToChars q := by
      apply pyStrip_of_no_space
      rw [hshape]
      intro c hc
      rcases List.mem_cons.mp hc with rfl | hm'
      · decide
      · exact render_core_no_space _ _ _ c hm'
    rw [parseFloat_cons _ '-' _ (by rw [hstrip, hshape])]
    rw [if_pos rfl, parseFloatCore_render _ _ hden0]
    show some (-(((m.natAbs : Nat) : ℚ) / 10 ^ q.den)) = some q
    congr 1
    rw [habs, hm]
    field_simp
  · have habs : ((m.natAbs : Nat) : ℚ) = (m : ℚ) := by
      have h2 := Int.natAbs_of_nonneg (le_of_not_lt hneg)
      have h3 := congrArg (fun z : Int => (z : ℚ)) h2
      simp only [Int.cast_natCast] at h3
      exact h3
    have hshape : ratToChars q =
        natToChars (m.natAbs / 10 ^ q.den) ++
          '.' :: padZeros q.den (natToChars (m.natAbs % 10 ^ q.den)) := by
      rw [ratToChars_eq, ← hmdef, if_neg hneg]
      rfl
    have hstrip : pyStrip (ratToChars q) = ratToChars q := by
      apply pyStrip_of_no_space
      rw [hshape]
      exact render_core_no_space _ _ _
    cases hc : natToChars (m.natAbs / 10 ^ q.den) with
    | nil => exact absurd hc (natToChars_ne_nil _)
    | cons c rest =>
      have hcd : isDigitCh c = true := by
        apply natToChars_digits (m.natAbs / 10 ^ q.den)
        rw [hc]; simp
      obtain ⟨_, _, hc2, hc3, _⟩ := isDigitCh_ne c hcd
      rw [parseFloat_cons _ c (rest ++ '.' :: padZeros q.den (natToChars (m.natAbs % 10 ^ q.den)))
        (by rw [hstrip, hshape, hc]; simp)]
      rw [if_neg hc2, if_neg hc3]
      have hjoin : c :: (rest ++ '.' :: padZeros q.den (natToChars (m.natAbs % 10 ^ q.den)))
          = natToChars (m.natAbs / 10 ^ q.den) ++
            '.' :: padZeros q.den (natToChars (m.natAbs % 10 ^ q.den)) := by
        rw [hc]; simp
      rw [hjoin, parseFloatCore_render _ _ hden0]
      rw [habs, hm]
      congr 1
      field_simp

/-! ## The product data model and catalog persistence (`product_manager.py`) -/

/-- One catalog entry, as the dictionary built by `load_products`. -/
structure Product where
  id : Int
  name : List Char
  brand : List Char
  stock : Int
  cost_price : ℚ
  origin : List Char
deriving DecidableEq

/-- The six `", "`-separated fields of one catalog line, in the order written
by `save_products`. -/
def productFields (p : Product) : List (List Char) :=
  [intToChars p.id, p.name, p.brand, intToChars p.stock,
   ratToChars p.cost_price, p.origin]

/-- One catalog line, as the f-string in `save_products` builds it (without the
trailing newline). -/
def productLine (p : Product) : List Char := joinSep (productFields p)

/-- File content written by `save_products`: one line per product, each
followed by a newline. -/
def save_products : List Product → List Char
  | [] => []
  | p :: ps => productLine p ++ '\n' :: save_products ps

/-- Parse one stripped, non-blank line: unpack into exactly six fields
(anything else raises `ValueError` in Python, modelled as `none`), convert
`id` and `stock` with `int()` and `cost_price` with `float()`. -/
def parseLine (l : List Char) : Option Product :=
  if (splitSep l).length = 6 then
    match parseInt ((splitSep l).getD 0 []), parseInt ((splitSep l).getD 3 []),
          parseFloat ((splitSep l).getD 4 []) with
    | some i, some s, some c =>
      some ⟨i, (splitSep l).getD 1 [], (splitSep l).getD 2 [], s, c,
            (splitSep l).getD 5 []⟩
    | _, _, _ => none
  else none

/-- The `for line in file` loop of `load_products`: skip blank lines, parse the
rest in order; any parse failure propagates (the Python exception aborts the
whole load). -/
def parseLinesAcc : List (List Char) → Option (List Product)
  | [] => some []
  | l :: ls =>
    if pyStrip l = [] then parseLinesAcc ls
    else
      match parseLine (pyStrip l) with
      | none => none
      | some p => (parseLinesAcc ls).map (fun ps => p :: ps)

/-- Parse a whole catalog file. -/
def parseProducts (content : List Char) : Option (List Product) :=
  parseLinesAcc (splitLines content)

/-- The three fixed seed rows written when the catalog file does not exist,
joined by newlines exactly as `'\n'.join(sample_data)` does. -/
def seedContent : List Char :=
  ("1, Vitamin C Serum, Garnier, 200, 1000, France\n" ++
   "2, Skin Cleanser, Cetaphil, 100, 280, Switzerland\n" ++
   "3, Sunscreen, Aqualogica, 200, 700, India").data

/-- `load_products`: argument is the current file content (`none` when the
file does not exist).  Returns the content on disk afterwards and the parse
result; a missing file is seeded with the sample rows and re-loaded. -/
def load_products : Option (List Char) → List Char × Option (List Product)
  | some content => (content, parseProducts content)
  | none => (seedContent, parseProducts seedContent)

/-- Conditions under which one catalog entry survives the save/load round
trip: the text fields contain neither the `", "` separator nor a newline (the
claim's hypotheses), the price is an exact decimal fraction (true of every
Python float), and — the amendment forced by `line.strip()` — the origin field
is non-empty and carries no trailing whitespace. -/
def GoodProduct (p : Product) : Prop :=
  noSep p.name = true ∧ noSep p.brand = true ∧ noSep p.origin = true ∧
  '\n' ∉ p.name ∧ '\n' ∉ p.brand ∧ '\n' ∉ p.origin ∧
  IsDecimalRat p.cost_price ∧
  p.origin ≠ [] ∧ rstrip p.origin = p.origin

instance (p : Product) : Decidable (GoodProduct p) :=
  inferInstanceAs (Decidable (_ ∧ _ ∧ _ ∧ _ ∧ _ ∧ _ ∧ _ ∧ _ ∧ _))

theorem intToChars_chars (i : Int) :
    ∀ c ∈ intToChars i, isDigitCh c = true ∨ c = '-' := by
  intro c hc
  unfold intToChars at hc
  by_cases h : i < 0
  · rw [if_pos h] at hc
    rcases List.mem_cons.mp hc with rfl | hm
    · right; rfl
    · left; exact natToChars_digits _ c hm
  · rw [if_neg h] at hc
    left; exact natToChars_digits _ c hc

theorem intToChars_ne_nil (i : Int) : intToChars i ≠ [] := by
  unfold intToChars
  by_cases h : i < 0
  · rw [if_pos h]; simp
  · rw [if_neg h]; exact natToChars_ne_nil _

theorem ratToChars_chars (q : ℚ) :
    ∀ c ∈ ratToChars q, isDigitCh c = true ∨ c = '-' ∨ c = '.' := by
  intro c hc
  rw [ratToChars_eq] at hc
  rcases List.mem_append.mp hc with hm | hm
  · rcases List.mem_append.mp hm with hs | hd
    · by_cases hneg : q.num * ((10 : Int) ^ q.den / (q.den : Int)) < 0
      · rw [if_pos hneg] at hs
        rw [List.mem_singleton.mp hs]
        right; left; rfl
      · rw [if_neg hneg] at hs
        simp at hs
    · left; exact natToChars_digits _ c hd
  · rcases List.mem_cons.mp hm with rfl | hm2
    · right; right; rfl
    · left; exact padZeros_digits _ _ (natToChars_digits _) c hm2

theorem intToChars_noSep (i : Int) : noSep (intToChars i) = true := by
  apply noSep_of_no_comma
  intro c hc
  rcases intToChars_chars i c hc with hd | rfl
  · exact (isDigitCh_ne c hd).1
  · decide

theorem ratToChars_noSep (q : ℚ) : noSep (ratToChars q) = true := by
  apply noSep_of_no_comma
  intro c hc
  rcases ratToChars_chars q c hc with hd | rfl | rfl
  · exact (isDigitCh_ne c hd).1
  · decide
  · decide

theorem splitSep_productLine (p : Product) (hp : GoodProduct p) :
    splitSep (productLine p) = productFields p := by
  apply splitSep_joinSep
  · simp [productFields]
  · intro f hf
    simp only [productFields, List.mem_cons, List.mem_singleton] at hf
    rcases hf with rfl | rfl | rfl | rfl | rfl | rfl | hfe
    · exact intToChars_noSep p.id
    · exact hp.1
    · exact hp.2.1
    · exact intToChars_noSep p.stock
    · exact ratToChars_noSep p.cost_price
    · exact hp.2.2.1
    · simp at hfe

theorem productLine_decomp (p : Product) :
    productLine p =
      (intToChars p.id ++ [',', ' '] ++ p.name ++ [',', ' '] ++ p.brand ++ [',', ' '] ++
        intToChars p.stock ++ [',', ' '] ++ ratToChars p.cost_price ++ [',', ' ']) ++
      p.origin := by
  simp [productLine, productFields, joinSep]

theorem mem_joinSep (fs : List (List Char)) (c : Char) (hc : c ∈ joinSep fs) :
    (∃ f ∈ fs, c ∈ f) ∨ c = ',' ∨ c = ' ' := by
  induction fs with
  | nil => simp [joinSep] at hc
  | cons f fs ih =>
    cases fs with
    | nil => exact Or.inl ⟨f, by simp, hc⟩
    | cons g gs =>
      have hj : joinSep (f :: g :: gs) = f ++ ',' :: ' ' :: joinSep (g :: gs) := rfl
      rw [hj] at hc
      rcases List.mem_append.mp hc with h | h
      · exact Or.inl ⟨f, by simp, h⟩
      · rcases List.mem_cons.mp h with rfl | h
        · right; left; rfl
        · rcases List.mem_cons.mp h with rfl | h
          · right; right; rfl
          · rcases ih h with ⟨f', hf', hcf⟩ | h2
            · exact Or.inl ⟨f', List.mem_cons_of_mem f hf', hcf⟩
            · exact Or.inr h2

theorem productLine_chars (p : Product) :
    ∀ c ∈ productLine p,
      c ∈ p.name ∨ c ∈ p.brand ∨ c ∈ p.origin ∨
      isDigitCh c = true ∨ c = '-' ∨ c = '.' ∨ c = ',' ∨ c = ' ' := by
  intro c hc
  rcases mem_joinSep (productFields p) c hc with ⟨f, hf, hcf⟩ | h | h
  · simp only [productFields, List.mem_cons, List.mem_singleton] at hf
    rcases hf with rfl | rfl | rfl | rfl | rfl | rfl | hfe
    · rcases intToChars_chars p.id c hcf with hd | rfl <;> tauto
    · tauto
    · tauto
    · rcases intToChars_chars p.stock c hcf with hd | rfl <;> tauto
    · rcases ratToChars_chars p.cost_price c hcf with hd | hd | hd <;> tauto
    · tauto
    · simp at hfe
  · tauto
  · tauto

theorem productLine_no_newline (p : Product) (hp : GoodProduct p) :
    '\n' ∉ productLine p := by
  intro hc
  rcases productLine_chars p '\n' hc with h | h | h | h | h | h | h | h
  · exact hp.2.2.2.1 h
  · exact hp.2.2.2.2.1 h
  · exact hp.2.2.2.2.2.1 h
  · exact absurd h (by decide)
  · exact absurd h (by decide)
  · exact absurd h (by decide)
  · exact absurd h (by decide)
  · exact absurd h (by decide)

theorem productLine_strip (p : Product) (hp : GoodProduct p) :
    pyStrip (productLine p) = productLine p := by
  have hid_no_space : ∀ c ∈ intToChars p.id, isPySpace c = false := intToChars_no_space p.id
  have hid_ne : intToChars p.id ≠ [] := intToChars_ne_nil p.id
  have hl : lstrip (productLine p) = productLine p := by
    have hshape : productLine p
        = intToChars p.id ++ (',' :: ' ' ::
            joinSep [p.name, p.brand, intToChars p.stock, ratToChars p.cost_price, p.origin]) := by
      simp [productLine, productFields, joinSep]
    rw [hshape]
    apply lstrip_append _ _ _ hid_ne
    cases hcase : intToChars p.id with
    | nil => exact absurd hcase hid_ne
    | cons c t =>
      apply lstrip_of_head
      apply hid_no_space
      rw [hcase]; simp
  have hr : rstrip (productLine p) = productLine p := by
    rw [productLine_decomp]
    exact rstrip_append _ _ hp.2.2.2.2.2.2.2.2 hp.2.2.2.2.2.2.2.1
  unfold pyStrip
  rw [hl, hr]

theorem productLine_ne_nil (p : Product) : productLine p ≠ [] := by
  rw [productLine_decomp]
  intro h
  have hlen := congrArg List.length h
  simp at hlen

theorem parseLine_productLine (p : Product) (hp : GoodProduct p) :
    parseLine (productLine p) = some p := by
  have hsplit : splitSep (productLine p) = productFields p := splitSep_productLine p hp
  unfold parseLine
  rw [hsplit]
  rw [if_pos (by simp [productFields])]
  simp only [productFields, List.getD_cons_zero, List.getD_cons_succ]
  rw [parseInt_intToChars, parseInt_intToChars, parseFloat_ratToChars _ hp.2.2.2.2.2.2.1]

theorem save_load_roundtrip (ps : List Product) (h : ∀ p ∈ ps, GoodProduct p) :
    parseProducts (save_products ps) = some ps := by
  induction ps with
  | nil => rfl
  | cons p ps ih =>
    have hp : GoodProduct p := h p (by simp)
    have hps : ∀ x ∈ ps, GoodProduct x := fun x hx => h x (List.mem_cons_of_mem p hx)
    unfold parseProducts
    show parseLinesAcc (splitLines (productLine p ++ '\n' :: save_products ps)) = _
    rw [splitLines_append _ _ (productLine_no_newline p hp)]
    show parseLinesAcc (productLine p :: splitLines (save_products ps)) = _
    unfold parseLinesAcc
    rw [productLine_strip p hp, if_neg (productLine_ne_nil p), parseLine_productLine p hp]
    have ih2 : parseLinesAcc (splitLines (save_products ps)) = some ps := ih hps
    rw [ih2]
    rfl

/-! ## Store operations (`product_manager.py`) -/

/-- The fold of `get_next_id`'s loop: maximum of the identifiers and `0`
(`max_id` starts at `0` and is raised by every larger identifier). -/
def max_id_fold (ps : List Product) : Int :=
  ps.foldl (fun m p => if p.id > m then p.id else m) 0

/-- Next available product identifier. -/
def get_next_id (ps : List Product) : Int := max_id_fold ps + 1

/-- `update_product_stock`: set the stock of the first product with the given
identifier and stop (`break`).  The boolean records whether a product was
found, hence whether `save_products` was called. -/
def update_product_stock : List Product → Int → Int → List Product × Bool
  | [], _, _ => ([], false)
  | p :: ps, pid, ns =>
    if p.id = pid then ({ p with stock := ns } :: ps, true)
    else
      let r := update_product_stock ps pid ns
      (p :: r.1, r.2)

/-- `update_product_stock` together with its effect on the catalog file: the
file is rewritten only when a product was found. -/
def update_stock_effect (ps : List Product) (pid ns : Int) (file : List Char) :
    List Product × List Char :=
  let r := update_product_stock ps pid ns
  (r.1, if r.2 then save_products r.1 else file)

/-- One line of a restock transaction, as built by `restock_products` in
`main.py` (`id` is `None` for a new product). -/
structure RestockItem where
  id : Option Int
  name : List Char
  brand : List Char
  quantity : Int
  cost_price : ℚ
  origin : List Char
deriving DecidableEq

/-- The dictionary appended by the `if not product_found` branch of
`handle_restock`. -/
def mkNewProduct (ps : List Product) (it : RestockItem) : Product :=
  { id := get_next_id ps, name := it.name, brand := it.brand,
    stock := it.quantity, cost_price := it.cost_price, origin := it.origin }

/-- The update applied to the first product whose identifier matches the
restock item: stock incremented, cost price, brand and origin overwritten
(the name is kept). -/
def restock_existing (pid : Int) (it : RestockItem) : List Product → List Product
  | [] => []
  | p :: ps =>
    if p.id = pid then
      { p with stock := p.stock + it.quantity, cost_price := it.cost_price,
               brand := it.brand, origin := it.origin } :: ps
    else p :: restock_existing pid it ps

/-- Process one restock item: update the first matching product, or append a
new product with the next identifier (an item with `id = None` never matches
any product, since `product['id'] == None` is false for integer identifiers). -/
def restock_one (ps : List Product) (it : RestockItem) : List Product :=
  match it.id with
  | some pid =>
    if ps.any (fun p => p.id == pid) then restock_existing pid it ps
    else ps ++ [mkNewProduct ps it]
  | none => ps ++ [mkNewProduct ps it]

/-- `handle_restock`: process the items of a batch in order (the final
`save_products` call has no effect on the in-memory list). -/
def handle_restock (ps : List Product) (items : List RestockItem) : List Product :=
  items.foldl restock_one ps

/-! ## The sale workflow (`main.py`) -/

/-- Markup constant of `main.py` (200 percent). -/
def MARKUP_PERCENTAGE : ℚ := 200

/-- The selling price computed by `display_products`. -/
def display_selling_price (p : Product) : ℚ :=
  p.cost_price * (1 + MARKUP_PERCENTAGE / 100)

/-- The error outcomes of `process_sale_item`, abstracting the printed
messages (each carries the stock quoted in the message). -/
inductive SaleError where
  | nonPositiveQuantity : SaleError
  | insufficientStock : Int → SaleError
  | insufficientForFree : Int → SaleError
deriving DecidableEq

/-- One line of a sale invoice, as the dictionary returned by
`process_sale_item`. -/
structure SaleItem where
  id : Int
  name : List Char
  brand : List Char
  quantity : Int
  free_items : Int
  price : ℚ
  total : ℚ
deriving DecidableEq

/-- `process_sale_item`: validate the quantity against the stock, apply the
buy-3-get-1-free rule, price at cost times `1 + MARKUP_PERCENTAGE/100`.
Python's `//` is floor division; for the positive quantities reaching it,
Lean's Euclidean `/` on `Int` agrees. -/
def process_sale_item (product : Product) (quantity : Int) : Except SaleError SaleItem :=
  if quantity ≤ 0 then Except.error SaleError.nonPositiveQuantity
  else if quantity > product.stock then
    Except.error (SaleError.insufficientStock product.stock)
  else if quantity + quantity / 3 > product.stock then
    Except.error (SaleError.insufficientForFree product.stock)
  else
    Except.ok { id := product.id, name := product.name, brand := product.brand,
                quantity := quantity, free_items := quantity / 3,
                price := product.cost_price * (1 + MARKUP_PERCENTAGE / 100),
                total := quantity * (product.cost_price * (1 + MARKUP_PERCENTAGE / 100)) }

/-- The new stock value passed to `update_stock` by `make_sale` after a
successful line: `product['stock'] - (quantity + free_items)`. -/
def sale_new_stock (p : Product) (item : SaleItem) : Int :=
  p.stock - (item.quantity + item.free_items)

/-- One iteration of the `make_sale` loop for a chosen product and quantity:
on error the catalog is untouched and the loop continues; on success the line
is recorded and the stock updated through the store. -/
def make_sale_line (ps : List Product) (p : Product) (q : Int) :
    List Product × Option SaleItem :=
  match process_sale_item p q with
  | Except.error _ => (ps, none)
  | Except.ok item =>
    ((update_product_stock ps p.id (sale_new_stock p item)).1, some item)

/-- A sale invoice document (the timestamp is real time and not modelled). -/
structure SaleInvoice where
  customer_name : List Char
  items : List SaleItem
  total_amount : ℚ

/-- A restock invoice document. -/
structure RestockInvoice where
  supplier_name : List Char
  items : List RestockItem
  total_amount : ℚ

/-- End of `make_sale`: an invoice is generated only when at least one line
item was recorded; this step never touches the catalog. -/
def make_sale_finalize (ps : List Product) (customer : List Char)
    (items : List SaleItem) (total : ℚ) : List Product × Option SaleInvoice :=
  if items.isEmpty then (ps, none) else (ps, some ⟨customer, items, total⟩)

/-- End of `restock_products`: with at least one line item the batch is
applied to the store and an invoice generated; otherwise nothing happens. -/
def restock_finalize (ps : List Product) (supplier : List Char)
    (items : List RestockItem) (total : ℚ) : List Product × Option RestockInvoice :=
  if items.isEmpty then (ps, none)
  else (handle_restock ps items, some ⟨supplier, items, total⟩)

/-- The store invariant: identifiers are pairwise distinct and no stock is
negative. -/
def StoreInv (ps : List Product) : Prop :=
  (ps.map Product.id).Nodup ∧ ∀ p ∈ ps, 0 ≤ p.stock

instance (ps : List Product) : Decidable (StoreInv ps) :=
  inferInstanceAs (Decidable (_ ∧ _))

/-- Every field of a product except the stock. -/
def nonStockFields (p : Product) : Int × List Char × List Char × ℚ × List Char :=
  (p.id, p.name, p.brand, p.cost_price, p.origin)

theorem update_product_stock_not_found (ps : List Product) (pid ns : Int)
    (h : ∀ p ∈ ps, p.id ≠ pid) :
    update_product_stock ps pid ns = (ps, false) := by
  induction ps with
  | nil => rfl
  | cons p ps ih =>
    have hp : p.id ≠ pid := h p (by simp)
    have hps : ∀ x ∈ ps, x.id ≠ pid := fun x hx => h x (List.mem_cons_of_mem p hx)
    simp only [update_product_stock, if_neg hp, ih hps]

theorem update_product_stock_map_nonStock (ps : List Product) (pid ns : Int) :
    ((update_product_stock ps pid ns).1).map nonStockFields = ps.map nonStockFields := by
  induction ps with
  | nil => rfl
  | cons p ps ih =>
    by_cases hp : p.id = pid
    · simp only [update_product_stock, if_pos hp]
      rfl
    · simp only [update_product_stock, if_neg hp, List.map_cons]
      rw [ih]

theorem update_product_stock_map_id (ps : List Product) (pid ns : Int) :
    ((update_product_stock ps pid ns).1).map Product.id = ps.map Product.id := by
  induction ps with
  | nil => rfl
  | cons p ps ih =>
    by_cases hp : p.id = pid
    · simp only [update_product_stock, if_pos hp]
      rfl
    · simp only [update_product_stock, if_neg hp, List.map_cons]
      rw [ih]

theorem update_product_stock_mem (ps : List Product) (pid ns : Int) (x : Product)
    (hx : x ∈ (update_product_stock ps pid ns).1) :
    x ∈ ps ∨ ∃ p ∈ ps, x = { p with stock := ns } := by
  induction ps with
  | nil => simp [update_product_stock] at hx
  | cons p ps ih =>
    by_cases hp : p.id = pid
    · simp only [update_product_stock, if_pos hp] at hx
      rcases List.mem_cons.mp hx with rfl | hm
      · exact Or.inr ⟨p, by simp, rfl⟩
      · exact Or.inl (List.mem_cons_of_mem p hm)
    · simp only [update_product_stock, if_neg hp] at hx
      rcases List.mem_cons.mp hx with rfl | hm
      · exact Or.inl (by simp)
      · rcases ih hm with h | ⟨p', hp', rfl⟩
        · exact Or.inl (List.mem_cons_of_mem p h)
        · exact Or.inr ⟨p', List.mem_cons_of_mem p hp', rfl⟩

theorem update_product_stock_found (l1 l2 : List Product) (pm : Product) (pid ns : Int)
    (hpm : pm.id = pid) (hl1 : ∀ p ∈ l1, p.id ≠ pid) :
    update_product_stock (l1 ++ pm :: l2) pid ns
      = (l1 ++ { pm with stock := ns } :: l2, true) := by
  induction l1 with
  | nil => simp [update_product_stock, hpm]
  | cons p l1 ih =>
    have hp : p.id ≠ pid := hl1 p (by simp)
    have hl1' : ∀ x ∈ l1, x.id ≠ pid := fun x hx => hl1 x (List.mem_cons_of_mem p hx)
    simp only [List.cons_append, update_product_stock, if_neg hp]
    have he : l1.append (pm :: l2) = l1 ++ pm :: l2 := rfl
    rw [he, ih hl1']

theorem foldl_max_init_le (ps : List Product) :
    ∀ init : Int, init ≤ ps.foldl (fun m p => if p.id > m then p.id else m) init := by
  induction ps with
  | nil => intro init; simp
  | cons p ps ih =>
    intro init
    rw [List.foldl_cons]
    calc init ≤ (if p.id > init then p.id else init) := by split <;> omega
    _ ≤ _ := ih _

theorem mem_le_foldl_max (ps : List Product) :
    ∀ init : Int, ∀ p ∈ ps,
      p.id ≤ ps.foldl (fun m p => if p.id > m then p.id else m) init := by
  induction ps with
  | nil => intro init p hp; simp at hp
  | cons q ps ih =>
    intro init p hp
    rw [List.foldl_cons]
    rcases List.mem_cons.mp hp with rfl | hm
    · calc p.id ≤ (if p.id > init then p.id else init) := by split <;> omega
      _ ≤ _ := foldl_max_init_le ps _
    · exact ih _ p hm

theorem foldl_max_attained (ps : List Product) :
    ∀ init : Int,
      ps.foldl (fun m p => if p.id > m then p.id else m) init = init ∨
      ∃ p ∈ ps, ps.foldl (fun m p => if p.id > m then p.id else m) init = p.id := by
  induction ps with
  | nil => intro init; exact Or.inl rfl
  | cons q ps ih =>
    intro init
    rw [List.foldl_cons]
    rcases ih (if q.id > init then q.id else init) with h | ⟨p, hp, h⟩
    · by_cases hq : q.id > init
      · refine Or.inr ⟨q, by simp, ?_⟩
        rw [h, if_pos hq]
      · refine Or.inl ?_
        rw [h, if_neg hq]
    · exact Or.inr ⟨p, List.mem_cons_of_mem q hp, h⟩

theorem max_id_fold_append (ps : List Product) (p : Product) :
    max_id_fold (ps ++ [p])
      = if p.id > max_id_fold ps then p.id else max_id_fold ps := by
  unfold max_id_fold
  rw [List.foldl_append]
  rfl

theorem mem_lt_get_next_id (ps : List Product) (p : Product) (hp : p ∈ ps) :
    p.id < get_next_id ps := by
  have := mem_le_foldl_max ps 0 p hp
  unfold get_next_id max_id_fold
  omega

theorem restock_existing_found (l1 l2 : List Product) (pm : Product) (pid : Int)
    (it : RestockItem) (hpm : pm.id = pid) (hl1 : ∀ p ∈ l1, p.id ≠ pid) :
    restock_existing pid it (l1 ++ pm :: l2)
      = l1 ++ { pm with stock := pm.stock + it.quantity, cost_price := it.cost_price,
                        brand := it.brand, origin := it.origin } :: l2 := by
  induction l1 with
  | nil => simp [restock_existing, hpm]
  | cons p l1 ih =>
    have hp : p.id ≠ pid := hl1 p (by simp)
    have hl1' : ∀ x ∈ l1, x.id ≠ pid := fun x hx => hl1 x (List.mem_cons_of_mem p hx)
    simp only [List.cons_append, restock_existing, if_neg hp]
    have he : l1.append (pm :: l2) = l1 ++ pm :: l2 := rfl
    rw [he, ih hl1']

theorem restock_existing_map_id (pid : Int) (it : RestockItem) (ps : List Product) :
    (restock_existing pid it ps).map Product.id = ps.map Product.id := by
  induction ps with
  | nil => rfl
  | cons p ps ih =>
    by_cases hp : p.id = pid
    · simp only [restock_existing, if_pos hp]
      rfl
    · simp only [restock_existing, if_neg hp, List.map_cons]
      rw [ih]

theorem restock_existing_mem (pid : Int) (it : RestockItem) (ps : List Product)
    (x : Product) (hx : x ∈ restock_existing pid it ps) :
    x ∈ ps ∨ ∃ p ∈ ps,
      x = { p with stock := p.stock + it.quantity, cost_price := it.cost_price,
                   brand := it.brand, origin := it.origin } := by
  induction ps with
  | nil => simp [restock_existing] at hx
  | cons p ps ih =>
    by_cases hp : p.id = pid
    · simp only [restock_existing, if_pos hp] at hx
      rcases List.mem_cons.mp hx with rfl | hm
      · exact Or.inr ⟨p, by simp, rfl⟩
      · exact Or.inl (List.mem_cons_of_mem p hm)
    · simp only [restock_existing, if_neg hp] at hx
      rcases List.mem_cons.mp hx with rfl | hm
      · exact Or.inl (by simp)
      · rcases ih hm with h | ⟨p', hp', rfl⟩
        · exact Or.inl (List.mem_cons_of_mem p h)
        · exact Or.inr ⟨p', List.mem_cons_of_mem p hp', rfl⟩

theorem any_id_iff (ps : List Product) (pid : Int) :
    ps.any (fun p => p.id == pid) = true ↔ ∃ p ∈ ps, p.id = pid := by
  simp [List.any_eq_true]

theorem process_sale_item_succeeds (p : Product) (q : Int) (h1 : 0 < q)
    (h2 : q + q / 3 ≤ p.stock) :
    process_sale_item p q = Except.ok
      ⟨p.id, p.name, p.brand, q, q / 3,
       p.cost_price * (1 + MARKUP_PERCENTAGE / 100),
       q * (p.cost_price * (1 + MARKUP_PERCENTAGE / 100))⟩ := by
  have hq3 : 0 ≤ q / 3 := by omega
  unfold process_sale_item
  rw [if_neg (by omega), if_neg (by omega), if_neg (by omega)]

theorem process_sale_item_ok (p : Product) (q : Int) (item : SaleItem)
    (h : process_sale_item p q = Except.ok item) :
    0 < q ∧ q ≤ p.stock ∧ q + q / 3 ≤ p.stock ∧
    item = ⟨p.id, p.name, p.brand, q, q / 3,
            p.cost_price * (1 + MARKUP_PERCENTAGE / 100),
            q * (p.cost_price * (1 + MARKUP_PERCENTAGE / 100))⟩ := by
  unfold process_sale_item at h
  split_ifs at h with h1 h2 h3
  exact ⟨by omega, by omega, by omega, (Except.ok.inj h).symm⟩

/-! ## Demonstration values (the seed catalog and the spec's sale scenario) -/

/-- The first seed product (id 1, stock 200, cost 1000). -/
def seedP1 : Product := ⟨1, "Vitamin C Serum".data, "Garnier".data, 200, 1000, "France".data⟩

/-- The second seed product. -/
def seedP2 : Product := ⟨2, "Skin Cleanser".data, "Cetaphil".data, 100, 280, "Switzerland".data⟩

/-- The third seed product. -/
def seedP3 : Product := ⟨3, "Sunscreen".data, "Aqualogica".data, 200, 700, "India".data⟩

/-- The seed catalog. -/
def seedCatalog : List Product := [seedP1, seedP2, seedP3]

/-- The sale line produced by selling quantity 6 of the first seed product
(the spec's end-to-end scenario: 2 free items, price 3000, line total 18000). -/
def demoSaleItem : SaleItem :=
  ⟨seedP1.id, seedP1.name, seedP1.brand, 6, 6 / 3,
   seedP1.cost_price * (1 + MARKUP_PERCENTAGE / 100),
   ((6 : Int) : ℚ) * (seedP1.cost_price * (1 + MARKUP_PERCENTAGE / 100))⟩

/-- Claim C2: for every product with stock `s` and every positive quantity `q`
with `q + (q div 3) ≤ s`, the sale line succeeds with `free_items = q div 3`,
the stock written back through `update_stock` is `s - (q + (q div 3))`, and
that value is never negative. -/
theorem C2_sale_stock (l1 l2 : List Product) (p : Product) (q : Int)
    (h1 : 0 < q) (h2 : q + q / 3 ≤ p.stock) (hl1 : ∀ x ∈ l1, x.id ≠ p.id) :
    ∃ item, process_sale_item p q = Except.ok item ∧
      item.free_items = q / 3 ∧ item.quantity = q ∧
      sale_new_stock p item = p.stock - (q + q / 3) ∧
      0 ≤ sale_new_stock p item ∧
      make_sale_line (l1 ++ p :: l2) p q
        = (l1 ++ { p with stock := p.stock - (q + q / 3) } :: l2, some item) := by
  have hok := process_sale_item_succeeds p q h1 h2
  refine ⟨⟨p.id, p.name, p.brand, q, q / 3,
      p.cost_price * (1 + MARKUP_PERCENTAGE / 100),
      q * (p.cost_price * (1 + MARKUP_PERCENTAGE / 100))⟩,
    hok, rfl, rfl, rfl, ?_, ?_⟩
  · show 0 ≤ p.stock - (q + q / 3)
    omega
  · have hline : make_sale_line (l1 ++ p :: l2) p q
        = ((update_product_stock (l1 ++ p :: l2) p.id
             (sale_new_stock p ⟨p.id, p.name, p.brand, q, q / 3,
               p.cost_price * (1 + MARKUP_PERCENTAGE / 100),
               q * (p.cost_price * (1 + MARKUP_PERCENTAGE / 100))⟩)).1,
           some ⟨p.id, p.name, p.brand, q, q / 3,
             p.cost_price * (1 + MARKUP_PERCENTAGE / 100),
             q * (p.cost_price * (1 + MARKUP_PERCENTAGE / 100))⟩) := by
      unfold make_sale_line
      rw [hok]
    rw [hline, update_product_stock_found l1 l2 p p.id _ rfl hl1]
    rfl

/-- Claim C2 witness: the spec's scenario, quantity 6 from stock 200. -/
theorem C2_sale_stock_witness :
    0 < (6 : Int) ∧ (6 : Int) + 6 / 3 ≤ seedP1.stock ∧
    (∀ x ∈ ([] : List Product), x.id ≠ seedP1.id) ∧
    ∃ item, process_sale_item seedP1 6 = Except.ok item ∧
      item.free_items = 6 / 3 ∧ item.quantity = 6 ∧
      sale_new_stock seedP1 item = seedP1.stock - (6 + 6 / 3) ∧
      0 ≤ sale_new_stock seedP1 item ∧
      make_sale_line ([] ++ seedP1 :: [seedP2, seedP3]) seedP1 6
        = ([] ++ { seedP1 with stock := seedP1.stock - (6 + 6 / 3) } :: [seedP2, seedP3],
           some item) :=
  ⟨by decide, by decide, by decide,
   C2_sale_stock [] [seedP2, seedP3] seedP1 6 (by decide) (by decide) (by decide)⟩

/-- Claim C4: the selling price used for display, sale lines, and line totals
equals `cost_price * 3` exactly (`1 + 200/100 = 3` in exact arithmetic). -/
theorem C4_markup (p : Product) (q : Int) (item : SaleItem) :
    display_selling_price p = p.cost_price * 3 ∧
    (process_sale_item p q = Except.ok item →
      item.price = p.cost_price * 3 ∧
      item.total = ((q : Int) : ℚ) * (p.cost_price * 3)) := by
  have h3 : (1 : ℚ) + MARKUP_PERCENTAGE / 100 = 3 := by
    unfold MARKUP_PERCENTAGE
    norm_num
  constructor
  · unfold display_selling_price
    rw [h3]
  · intro h
    obtain ⟨_, _, _, rfl⟩ := process_sale_item_ok p q item h
    constructor
    · show p.cost_price * (1 + MARKUP_PERCENTAGE / 100) = p.cost_price * 3
      rw [h3]
    · show ((q : Int) : ℚ) * (p.cost_price * (1 + MARKUP_PERCENTAGE / 100))
        = ((q : Int) : ℚ) * (p.cost_price * 3)
      rw [h3]

/-- Claim C4 witness: the scenario sale line of quantity 6 at cost 1000. -/
theorem C4_markup_witness :
    process_sale_item seedP1 6 = Except.ok demoSaleItem ∧
    demoSaleItem.price = seedP1.cost_price * 3 ∧
    demoSaleItem.total = ((6 : Int) : ℚ) * (seedP1.cost_price * 3) ∧
    display_selling_price seedP1 = seedP1.cost_price * 3 := by
  have hok : process_sale_item seedP1 6 = Except.ok demoSaleItem := rfl
  have h := C4_markup seedP1 6 demoSaleItem
  obtain ⟨hp, ht⟩ := h.2 hok
  exact ⟨hok, hp, ht, h.1⟩

/-- Claim C6: `update_stock` with an identifier not in the catalog is a
silent no-op — the in-memory list and the catalog file are both unchanged,
and the function has no error path at all. -/
theorem C6_update_stock_noop (ps : List Product) (pid ns : Int) (file : List Char)
    (h : ∀ p ∈ ps, p.id ≠ pid) :
    update_product_stock ps pid ns = (ps, false) ∧
    update_stock_effect ps pid ns file = (ps, file) := by
  have h1 := update_product_stock_not_found ps pid ns h
  refine ⟨h1, ?_⟩
  unfold update_stock_effect
  rw [h1]
  rfl

/-- Claim C6 witness: identifier 99 is absent from the seed catalog. -/
theorem C6_update_stock_noop_witness :
    (∀ p ∈ seedCatalog, p.id ≠ 99) ∧
    update_product_stock seedCatalog 99 5 = (seedCatalog, false) ∧
    update_stock_effect seedCatalog 99 5 [] = (seedCatalog, []) :=
  ⟨by decide, C6_update_stock_noop seedCatalog 99 5 [] (by decide)⟩

/-- Claim C7: when the requested quantity plus its free items exceeds the
stock, the line is rejected with an insufficient-stock error and the catalog
is left unchanged. -/
theorem C7_insufficient_stock (ps : List Product) (p : Product) (q : Int)
    (h1 : 1 ≤ q) (h2 : p.stock < q + q / 3) :
    (∃ e, process_sale_item p q = Except.error e ∧
      (e = SaleError.insufficientStock p.stock ∨
       e = SaleError.insufficientForFree p.stock)) ∧
    make_sale_line ps p q = (ps, none) := by
  have hq3 : 0 ≤ q / 3 := by omega
  by_cases hgt : q > p.stock
  · have he : process_sale_item p q
        = Except.error (SaleError.insufficientStock p.stock) := by
      unfold process_sale_item
      rw [if_neg (by omega), if_pos hgt]
    refine ⟨⟨_, he, Or.inl rfl⟩, ?_⟩
    unfold make_sale_line
    rw [he]
  · have he : process_sale_item p q
        = Except.error (SaleError.insufficientForFree p.stock) := by
      unfold process_sale_item
      rw [if_neg (by omega), if_neg hgt, if_pos (by omega)]
    refine ⟨⟨_, he, Or.inr rfl⟩, ?_⟩
    unfold make_sale_line
    rw [he]

/-- Claim C7 witness: selling quantity 998 from stock 200 is rejected and the
catalog is unchanged (the spec's end-to-end rejection scenario). -/
theorem C7_insufficient_stock_witness :
    (1 : Int) ≤ 998 ∧ seedP1.stock < 998 + 998 / 3 ∧
    ((∃ e, process_sale_item seedP1 998 = Except.error e ∧
       (e = SaleError.insufficientStock seedP1.stock ∨
        e = SaleError.insufficientForFree seedP1.stock)) ∧
     make_sale_line seedCatalog seedP1 998 = (seedCatalog, none)) :=
  ⟨by decide, by decide,
   C7_insufficient_stock seedCatalog seedP1 998 (by decide) (by decide)⟩

/-- Claim C8: a transaction that ends with zero recorded line items creates
no invoice and leaves the catalog exactly as the per-line processing left
it. -/
theorem C8_empty_transaction (ps : List Product) (customer supplier : List Char)
    (t u : ℚ) :
    make_sale_finalize ps customer [] t = (ps, none) ∧
    restock_finalize ps supplier [] u = (ps, none) := by
  constructor <;> rfl

/-- Claim C10: `process_sale_item` is pure — per sale line the catalog either
stays exactly `ps` (error) or differs only through the `update_stock` call,
which changes nothing but the stock field of the matched product. -/
theorem C10_frame (ps : List Product) (p : Product) (q : Int) :
    (∀ e, process_sale_item p q = Except.error e → make_sale_line ps p q = (ps, none)) ∧
    (∀ item, process_sale_item p q = Except.ok item →
      make_sale_line ps p q
        = ((update_product_stock ps p.id (sale_new_stock p item)).1, some item) ∧
      ((update_product_stock ps p.id (sale_new_stock p item)).1).map nonStockFields
        = ps.map nonStockFields) := by
  constructor
  · intro e he
    unfold make_sale_line
    rw [he]
  · intro item hi
    refine ⟨?_, update_product_stock_map_nonStock ps p.id _⟩
    unfold make_sale_line
    rw [hi]

/-- Claim C10 witness: the scenario sale line, showing the catalog after the
line keeps every non-stock field. -/
theorem C10_frame_witness :
    process_sale_item seedP1 6 = Except.ok demoSaleItem ∧
    make_sale_line seedCatalog seedP1 6
      = ((update_product_stock seedCatalog seedP1.id
            (sale_new_stock seedP1 demoSaleItem)).1, some demoSaleItem) ∧
    ((update_product_stock seedCatalog seedP1.id
        (sale_new_stock seedP1 demoSaleItem)).1).map nonStockFields
      = seedCatalog.map nonStockFields := by
  have hok : process_sale_item seedP1 6 = Except.ok demoSaleItem := rfl
  obtain ⟨h1, h2⟩ := (C10_frame seedCatalog seedP1 6).2 demoSaleItem hok
  exact ⟨hok, h1, h2⟩

theorem max_id_fold_mem_le (ps : List Product) (p : Product) (hp : p ∈ ps) :
    p.id ≤ max_id_fold ps :=
  mem_le_foldl_max ps 0 p hp

theorem max_id_fold_attained (ps : List Product) :
    max_id_fold ps = 0 ∨ ∃ p ∈ ps, max_id_fold ps = p.id :=
  foldl_max_attained ps 0

theorem store_inv_update (ps : List Product) (pid ns : Int)
    (hinv : StoreInv ps) (hns : 0 ≤ ns) :
    StoreInv (update_product_stock ps pid ns).1 := by
  constructor
  · rw [update_product_stock_map_id]
    exact hinv.1
  · intro x hx
    rcases update_product_stock_mem ps pid ns x hx with hm | ⟨p, hp, rfl⟩
    · exact hinv.2 x hm
    · exact hns

theorem store_inv_append_new (ps : List Product) (it : RestockItem)
    (hinv : StoreInv ps) (hq : 0 < it.quantity) :
    StoreInv (ps ++ [mkNewProduct ps it]) := by
  constructor
  · rw [List.map_append]
    rw [List.nodup_append]
    refine ⟨hinv.1, List.nodup_singleton _, ?_⟩
    intro a ha hb
    obtain ⟨p, hp, rfl⟩ := List.mem_map.mp ha
    simp only [List.map_cons, List.map_nil, List.mem_singleton] at hb
    have := mem_lt_get_next_id ps p hp
    have hid : (mkNewProduct ps it).id = get_next_id ps := rfl
    rw [hid] at hb
    omega
  · intro x hx
    rcases List.mem_append.mp hx with hm | hm
    · exact hinv.2 x hm
    · rw [List.mem_singleton.mp hm]
      exact le_of_lt hq

theorem restock_one_some (ps : List Product) (it : RestockItem) (pid : Int)
    (h : it.id = some pid) :
    restock_one ps it =
      if (ps.any fun p => p.id == pid) = true then restock_existing pid it ps
      else ps ++ [mkNewProduct ps it] := by
  unfold restock_one
  rw [h]

theorem restock_one_none (ps : List Product) (it : RestockItem) (h : it.id = none) :
    restock_one ps it = ps ++ [mkNewProduct ps it] := by
  unfold restock_one
  rw [h]

theorem store_inv_restock_one (ps : List Product) (it : RestockItem)
    (hinv : StoreInv ps) (hq : 0 < it.quantity) :
    StoreInv (restock_one ps it) := by
  cases hid : it.id with
  | none =>
    rw [restock_one_none ps it hid]
    exact store_inv_append_new ps it hinv hq
  | some pid =>
    rw [restock_one_some ps it pid hid]
    by_cases hany : ps.any (fun p => p.id == pid) = true
    · rw [if_pos hany]
      constructor
      · rw [restock_existing_map_id]
        exact hinv.1
      · intro x hx
        rcases restock_existing_mem pid it ps x hx with hm | ⟨p, hp, rfl⟩
        · exact hinv.2 x hm
        · have := hinv.2 p hp
          show 0 ≤ p.stock + it.quantity
          omega
    · rw [if_neg hany]
      exact store_inv_append_new ps it hinv hq

/-- Claim C5: identifier uniqueness and non-negative stock are preserved by
every store mutation the workflows perform: a stock update with a validated
non-negative value, a restock line (existing product with positive quantity,
or append of a new product), and the stock update a successful sale line
issues. -/
theorem C5_invariants (ps : List Product) (pid ns : Int) (it : RestockItem)
    (p : Product) (q : Int) (item : SaleItem) :
    (StoreInv ps → 0 ≤ ns → StoreInv (update_product_stock ps pid ns).1) ∧
    (StoreInv ps → 0 < it.quantity → StoreInv (restock_one ps it)) ∧
    (StoreInv ps → process_sale_item p q = Except.ok item →
      StoreInv (update_product_stock ps p.id (sale_new_stock p item)).1) := by
  refine ⟨store_inv_update ps pid ns, store_inv_restock_one ps it, ?_⟩
  intro hinv hok
  obtain ⟨h1, h2, h3, rfl⟩ := process_sale_item_ok p q item hok
  apply store_inv_update ps p.id _ hinv
  show 0 ≤ p.stock - (q + q / 3)
  omega

/-- A new-product restock line, the spec's scenario: "Face Wash", quantity 50,
cost 200, against a catalog whose maximum identifier is 3. -/
def faceWashItem : RestockItem :=
  ⟨none, "Face Wash".data, "Himalaya".data, 50, 200, "India".data⟩

/-- A restock line for the existing product with identifier 2. -/
def cleanserRestock : RestockItem :=
  ⟨some 2, "Skin Cleanser".data, "Cetaphil".data, 30, 300, "Switzerland".data⟩

/-- Claim C5 witness: the invariants hold for the seed catalog and survive a
stock update, a restock line, and the scenario sale line. -/
theorem C5_invariants_witness :
    StoreInv seedCatalog ∧
    StoreInv (update_product_stock seedCatalog 1 192).1 ∧
    StoreInv (restock_one seedCatalog faceWashItem) ∧
    StoreInv (update_product_stock seedCatalog seedP1.id
      (sale_new_stock seedP1 demoSaleItem)).1 := by
  have h := C5_invariants seedCatalog 1 192 faceWashItem seedP1 6 demoSaleItem
  have hinv : StoreInv seedCatalog := by decide
  exact ⟨hinv, h.1 hinv (by decide), h.2.1 hinv (by decide), h.2.2 hinv rfl⟩

/-- Claim C3: a restock line with a matching identifier adds its quantity to
that product's stock and overwrites cost price, brand and origin; a line with
an unset identifier is appended as a new product whose stock is the quantity
and whose identifier is one more than the maximum identifier at that moment
(the fold of the loop in `get_next_id`), so consecutive new lines in a batch
get strictly increasing identifiers. -/
theorem C3_restock (l1 l2 : List Product) (pm : Product) (ps : List Product)
    (it it2 : RestockItem) (pid : Int) :
    (it.id = some pid → pm.id = pid → (∀ p ∈ l1, p.id ≠ pid) →
      restock_one (l1 ++ pm :: l2) it =
        l1 ++ { pm with stock := pm.stock + it.quantity, cost_price := it.cost_price,
                        brand := it.brand, origin := it.origin } :: l2) ∧
    (it.id = none → restock_one ps it = ps ++ [mkNewProduct ps it]) ∧
    ((mkNewProduct ps it).stock = it.quantity ∧
     (mkNewProduct ps it).id = max_id_fold ps + 1) ∧
    (∀ p ∈ ps, p.id < (mkNewProduct ps it).id) ∧
    (it.id = none →
      (mkNewProduct (restock_one ps it) it2).id = (mkNewProduct ps it).id + 1) ∧
    (ps ≠ [] → (∀ p ∈ ps, 0 ≤ p.id) →
      ∃ pmax ∈ ps, max_id_fold ps = pmax.id ∧ ∀ p ∈ ps, p.id ≤ pmax.id) := by
  refine ⟨?_, ?_, ⟨rfl, rfl⟩, ?_, ?_, ?_⟩
  · intro hit hpm hl1
    rw [restock_one_some _ it pid hit]
    have hany : (l1 ++ pm :: l2).any (fun p => p.id == pid) = true :=
      (any_id_iff _ pid).mpr ⟨pm, by simp, hpm⟩
    rw [if_pos hany]
    exact restock_existing_found l1 l2 pm pid it hpm hl1
  · intro hit
    exact restock_one_none ps it hit
  · intro p hp
    exact mem_lt_get_next_id ps p hp
  · intro hit
    rw [restock_one_none ps it hit]
    have hlhs : (mkNewProduct (ps ++ [mkNewProduct ps it]) it2).id
        = max_id_fold (ps ++ [mkNewProduct ps it]) + 1 := rfl
    have hrhs : (mkNewProduct ps it).id = max_id_fold ps + 1 := rfl
    rw [hlhs, hrhs, max_id_fold_append, if_pos (by rw [hrhs]; omega), hrhs]
  · intro hne hpos
    rcases max_id_fold_attained ps with h0 | ⟨p, hp, hfold⟩
    · cases ps with
      | nil => exact absurd rfl hne
      | cons r rs =>
        have h1 := max_id_fold_mem_le (r :: rs) r (by simp)
        have h2 := hpos r (by simp)
        refine ⟨r, by simp, by omega, ?_⟩
        intro x hx
        have h3 := max_id_fold_mem_le (r :: rs) x hx
        omega
    · refine ⟨p, hp, hfold, ?_⟩
      intro x hx
      have := max_id_fold_mem_le ps x hx
      omega

/-- The second seed product after the `cleanserRestock` line is applied. -/
def cleanserUpdated : Product :=
  { seedP2 with
    stock := seedP2.stock + cleanserRestock.quantity,
    cost_price := cleanserRestock.cost_price,
    brand := cleanserRestock.brand,
    origin := cleanserRestock.origin }

/-- Claim C3 witness: restocking identifier 2 updates it in place; the
"Face Wash" line is appended with identifier 4 (= max 3 + 1) and stock 50;
appending it twice would give identifiers 4 then 5. -/
theorem C3_restock_witness :
    restock_one seedCatalog cleanserRestock = [seedP1] ++ cleanserUpdated :: [seedP3] ∧
    restock_one seedCatalog faceWashItem
      = seedCatalog ++ [mkNewProduct seedCatalog faceWashItem] ∧
    (mkNewProduct seedCatalog faceWashItem).stock = 50 ∧
    (mkNewProduct seedCatalog faceWashItem).id = 4 ∧
    (mkNewProduct (restock_one seedCatalog faceWashItem) faceWashItem).id
      = (mkNewProduct seedCatalog faceWashItem).id + 1 := by
  have h := C3_restock [seedP1] [seedP3] seedP2 seedCatalog
    faceWashItem faceWashItem 2
  have hex := C3_restock [seedP1] [seedP3] seedP2 seedCatalog
    cleanserRestock faceWashItem 2
  refine ⟨hex.1 rfl rfl (by decide), h.2.1 rfl, ?_, ?_, h.2.2.2.2.1 rfl⟩
  · exact h.2.2.1.1
  · have := h.2.2.1.2
    rw [this]
    decide

/-- Claim C1, amended: a catalog whose text fields contain no `", "` and no
newline round-trips through `save_products` and `load_products` — provided
additionally that each origin field is non-empty and has no trailing
whitespace (part of `GoodProduct`; without that, `line.strip()` changes the
field, see the counterexample).  The decimal-fraction condition on the price
reflects that every Python float is an exact decimal fraction. -/
theorem C1_roundtrip_amended (ps : List Product) (h : ∀ p ∈ ps, GoodProduct p) :
    parseProducts (save_products ps) = some ps :=
  save_load_roundtrip ps h

/-- Claim C1 witness: the seed catalog round-trips. -/
theorem C1_roundtrip_witness :
    (∀ p ∈ seedCatalog, GoodProduct p) ∧
    parseProducts (save_products seedCatalog) = some seedCatalog :=
  ⟨by decide, C1_roundtrip_amended seedCatalog (by decide)⟩

/-- A product satisfying every hypothesis of claim C1 as stated — no `", "`
and no newline in any text field, integer id and stock, decimal price — whose
origin ends in a space. -/
def cexProduct : Product := ⟨1, "Serum".data, "Garnier".data, 5, 1000, "France ".data⟩

/-- Claim C1 counterexample: the claim as stated fails on `cexProduct`:
`line.strip()` in `load_products` removes the trailing space of the origin
field, so loading returns a different product. -/
theorem C1_roundtrip_counterexample :
    noSep cexProduct.name = true ∧ noSep cexProduct.brand = true ∧
    noSep cexProduct.origin = true ∧
    '\n' ∉ cexProduct.name ∧ '\n' ∉ cexProduct.brand ∧ '\n' ∉ cexProduct.origin ∧
    IsDecimalRat cexProduct.cost_price ∧
    parseProducts (save_products [cexProduct]) ≠ some [cexProduct] := by
  refine ⟨by decide, by decide, by decide, by decide, by decide, by decide,
    by decide, ?_⟩
  intro h
  have h2 := congrArg (Option.map (List.map Product.origin)) h
  revert h2
  decide

theorem parseLine_none (l : List Char)
    (hbad : (splitSep l).length ≠ 6 ∨
      parseInt ((splitSep l).getD 0 []) = none ∨
      parseInt ((splitSep l).getD 3 []) = none ∨
      parseFloat ((splitSep l).getD 4 []) = none) :
    parseLine l = none := by
  unfold parseLine
  by_cases h6 : (splitSep l).length = 6
  · rw [if_pos h6]
    rcases hbad with hb | hb | hb | hb
    · exact absurd h6 hb
    · rw [hb]
    · rw [hb]
      cases parseInt ((splitSep l).getD 0 []) <;> rfl
    · rw [hb]
      cases parseInt ((splitSep l).getD 0 []) <;>
        cases parseInt ((splitSep l).getD 3 []) <;> rfl
  · rw [if_neg h6]

theorem parseLinesAcc_none (lines : List (List Char)) (l : List Char)
    (hmem : l ∈ lines) (hne : pyStrip l ≠ []) (hnone : parseLine (pyStrip l) = none) :
    parseLinesAcc lines = none := by
  induction lines with
  | nil => simp at hmem
  | cons x xs ih =>
    rcases List.mem_cons.mp hmem with rfl | hm
    · unfold parseLinesAcc
      rw [if_neg hne, hnone]
    · unfold parseLinesAcc
      by_cases hx : pyStrip x = []
      · rw [if_pos hx]
        exact ih hm
      · rw [if_neg hx]
        cases hpx : parseLine (pyStrip x) with
        | none => rfl
        | some p =>
          rw [ih hm]
          rfl

/-- Claim C9: loading with the catalog file absent writes exactly the three
fixed seed rows and loads them; a non-blank line with a field count other
than six, or with an unparsable id, stock, or cost-price field, makes the
whole load fail (`none`), with no recovery. -/
theorem C9_load_bootstrap_and_errors :
    (load_products none = (seedContent, some seedCatalog) ∧ seedCatalog.length = 3) ∧
    (∀ content l, l ∈ splitLines content → pyStrip l ≠ [] →
      ((splitSep (pyStrip l)).length ≠ 6 ∨
       parseInt ((splitSep (pyStrip l)).getD 0 []) = none ∨
       parseInt ((splitSep (pyStrip l)).getD 3 []) = none ∨
       parseFloat ((splitSep (pyStrip l)).getD 4 []) = none) →
      parseProducts content = none) := by
  constructor
  · constructor
    · show (seedContent, parseProducts seedContent) = (seedContent, some seedCatalog)
      have hparse : parseProducts seedContent = some seedCatalog := by decide
      rw [hparse]
    · rfl
  · intro content l hmem hne hbad
    exact parseLinesAcc_none (splitLines content) l hmem hne (parseLine_none _ hbad)

/-- A malformed catalog line with two fields instead of six. -/
def badContent : List Char := "1, 2".data

/-- Claim C9 witness: the bootstrap load of the seed file succeeds, and the
two-field line makes a load fail. -/
theorem C9_load_witness :
    badContent ∈ splitLines badContent ∧ pyStrip badContent ≠ [] ∧
    (splitSep (pyStrip badContent)).length ≠ 6 ∧
    parseProducts badContent = none ∧
    load_products none = (seedContent, some seedCatalog) := by
  have h := C9_load_bootstrap_and_errors
  refine ⟨by decide, by decide, by decide, ?_, h.1.1⟩
  exact h.2 badContent badContent (by decide) (by decide) (Or.inl (by decide))

end WeCare
